import Mathlib

/-!
Verification of the track-catalog and webhook-publisher core of
`scarchive_bot` (src/db.rs, src/discord.rs) against its specification.

The Rust code is shallowly embedded: the `HashMap<String, Option<DiscordMessage>>`
catalog is an association list with unique keys maintained by `mapInsert`;
JSON documents are modelled by the inductive `Json` (numbers are integers,
which covers every document the claims mention); file-system effects of
`save` / `load_or_create` are modelled by recording the document written to
the target path and to the backup paths.  Fallible operations return
`Option` / `Except`.
-/

/-- Discord message information stored per track (src/db.rs, `DiscordMessage`). -/
structure DiscordMessage where
  id : String
  channel_id : Option String
  user_id : Option String
deriving DecidableEq, Repr

/-- The in-memory catalog map: track id to optional Discord post record.
Models `HashMap<String, Option<DiscordMessage>>` as an association list whose
keys stay unique because `mapInsert` replaces in place. -/
abbrev Tracks := List (String × Option DiscordMessage)

/-- Lookup the value stored for a key (models `HashMap::get`). -/
def mapLookup : Tracks → String → Option (Option DiscordMessage)
  | [], _ => none
  | (k', v) :: t, k => if k' = k then some v else mapLookup t k

/-- Insert a key-value pair, replacing an existing binding for the key
(models `HashMap::insert`). -/
def mapInsert : Tracks → String → Option DiscordMessage → Tracks
  | [], k, v => [(k, v)]
  | (k', v') :: t, k, v => if k' = k then (k, v) :: t else (k', v') :: mapInsert t k v

/-- Membership test (models `HashMap::contains_key`, i.e. `has_track`). -/
def hasTrack (d : Tracks) (k : String) : Bool := (mapLookup d k).isSome

/-- Insert a whole list of bindings left to right (later bindings win,
as when `serde` collects a JSON object into a `HashMap`). -/
def insertAll (d : Tracks) (l : Tracks) : Tracks :=
  l.foldl (fun acc kv => mapInsert acc kv.1 kv.2) d

/-- Keys of the catalog are pairwise distinct. -/
def nodupKeys (d : Tracks) : Prop := (d.map Prod.fst).Nodup

instance : DecidablePred nodupKeys := fun d => by
  unfold nodupKeys; infer_instance

/-- JSON documents, as far as the catalog file format needs them.  Numbers are
modelled as integers: `serde_json`'s `as_u64` succeeds exactly on integers in
`[0, 2^64)`, and every number any claim mentions is an integer. -/
inductive Json where
  | null : Json
  | bool (b : Bool) : Json
  | num (n : Int) : Json
  | str (s : String) : Json
  | arr (elems : List Json) : Json
  | obj (fields : List (String × Json)) : Json

/-- Field access on a list of JSON object fields (first occurrence; the
documents this development produces never have duplicate field names). -/
def getField : List (String × Json) → String → Option Json
  | [], _ => none
  | (k, v) :: t, name => if k = name then some v else getField t name

/-- Field access on a JSON value (models `Value::get(name)`). -/
def Json.get (j : Json) (name : String) : Option Json :=
  match j with
  | Json.obj fs => getField fs name
  | _ => none

/-- Array view of a JSON value (models `Value::as_array`). -/
def Json.asArray : Json → Option (List Json)
  | Json.arr xs => some xs
  | _ => none

/-- Serialization of an optional string field (`Option<String>` becomes
`null` or a string). -/
def optStrToJson : Option String → Json
  | none => Json.null
  | some s => Json.str s

/-- Serialization of a `DiscordMessage` record. -/
def msgToJson (m : DiscordMessage) : Json :=
  Json.obj [("id", Json.str m.id), ("channel_id", optStrToJson m.channel_id),
            ("user_id", optStrToJson m.user_id)]

/-- Serialization of a catalog value (`Option<DiscordMessage>` becomes
`null` or an object). -/
def entryToJson : Option DiscordMessage → Json
  | none => Json.null
  | some m => msgToJson m

/-- Serialization of the whole database, as `save` writes it:
a single object with one field `tracks` holding the map
(`db_path` carries `serde(skip)` and is not serialized). -/
def serializeDb (db : Tracks) : Json :=
  Json.obj [("tracks", Json.obj (db.map (fun kv => (kv.1, entryToJson kv.2))))]

/-- Deserialization of an `Option<String>` struct field: missing or `null`
gives `none`, a string gives `some`, anything else is a parse error. -/
def parseOptStrField (fs : List (String × Json)) (name : String) : Option (Option String) :=
  match getField fs name with
  | none => some none
  | some Json.null => some none
  | some (Json.str s) => some (some s)
  | some _ => none

/-- Deserialization of a `DiscordMessage`: the `id` field is a required
string, the other two fields are optional strings. -/
def parseMsg : Json → Option DiscordMessage
  | Json.obj fs =>
    match getField fs "id" with
    | some (Json.str i) =>
      match parseOptStrField fs "channel_id", parseOptStrField fs "user_id" with
      | some c, some u => some ⟨i, c, u⟩
      | _, _ => none
    | _ => none
  | _ => none

/-- Deserialization of a catalog value: `null` gives the absent post,
an object must parse as a `DiscordMessage`. -/
def parseEntryVal : Json → Option (Option DiscordMessage)
  | Json.null => some none
  | j => (parseMsg j).map some

/-- Deserialization of the entries of the `tracks` object, in order;
any bad entry fails the whole parse. -/
def parseEntries : List (String × Json) → Option Tracks
  | [] => some []
  | (k, j) :: t =>
    match parseEntryVal j, parseEntries t with
    | some v, some rest => some ((k, v) :: rest)
    | _, _ => none

/-- Deserialization of the current database format: a top-level object whose
`tracks` field (missing means empty, by `serde(default)`) is an object of
entries, collected into the map as a `HashMap` would be. -/
def parseDb : Json → Option Tracks
  | Json.obj fs =>
    match getField fs "tracks" with
    | none => some []
    | some (Json.obj entries) => (parseEntries entries).map (insertAll [])
    | some _ => none
  | _ => none

/-- Stringification of a legacy array element, mirroring the migration code:
`as_str` first, then `as_u64` (integers in `[0, 2^64)`); anything else is
skipped. -/
def stringifyScalar : Json → Option String
  | Json.str s => some s
  | Json.num n => if 0 ≤ n ∧ n < (2 : Int) ^ 64 then some (toString n.toNat) else none
  | _ => none

/-- Migration from the legacy format (src/db.rs, `migrate_from_old_format`):
if the `tracks` field is an array, each stringifiable element is inserted
with the absent post; `none` means the document is not in the legacy format. -/
def migrate_from_old_format (j : Json) : Option Tracks :=
  match (j.get "tracks").bind Json.asArray with
  | some arr =>
    some (arr.foldl (fun db el =>
      match stringifyScalar el with
      | some s => mapInsert db s none
      | none => db) [])
  | none => none

/-- Result of `load_or_create`, with the file-system effects reified:
`written` is the document written to the target path (`none` when nothing is
written), `oldFormatBak` the document copied to `<path>.old_format.bak`, and
`corruptedBak` the document copied to `<path>.corrupted.bak`. -/
structure LoadResult where
  db : Tracks
  written : Option Json
  oldFormatBak : Option Json
  corruptedBak : Option Json

/-- Model of `load_or_create` (src/db.rs): `content` is the document at the
path (`none` when the file does not exist).  Migration is attempted first;
otherwise the current format is parsed; a document in neither format routes
to the corruption fallback.  File I/O is assumed to succeed. -/
def load_or_create (content : Option Json) : LoadResult :=
  match content with
  | none => { db := [], written := some (serializeDb []), oldFormatBak := none, corruptedBak := none }
  | some j =>
    match migrate_from_old_format j with
    | some db => { db := db, written := some (serializeDb db), oldFormatBak := some j, corruptedBak := none }
    | none =>
      match parseDb j with
      | some db => { db := db, written := none, oldFormatBak := none, corruptedBak := none }
      | none => { db := [], written := some (serializeDb []), oldFormatBak := none, corruptedBak := some j }

/-- In-memory database together with the document currently on disk at
`db_path` (the part of the file system the store owns). -/
structure DbState where
  tracks : Tracks
  fileContent : Option Json

/-- Model of `save` (src/db.rs): writes the serialization of the current
state to the path.  The `.bak` copy made before the write is removed again
on success, so a successful save leaves only the new document. -/
def saveDb (st : DbState) : DbState :=
  { st with fileContent := some (serializeDb st.tracks) }

/-- Model of `add_tracks` (src/db.rs): filter the input down to the ids not
yet present, insert each of those with the absent post, and return them in
input order.  The file on disk is not touched. -/
def add_tracks (st : DbState) (track_ids : List String) : DbState × List String :=
  let new_tracks := track_ids.filter (fun id => !hasTrack st.tracks id)
  ({ st with tracks := new_tracks.foldl (fun d id => mapInsert d id none) st.tracks },
   new_tracks)

/-- Model of `initialize_with_tracks` (src/db.rs): insert every input id with
the absent post unconditionally (overwriting any existing binding), then
save.  The save is modelled as succeeding. -/
def initialize_with_tracks (st : DbState) (track_ids : List String) : DbState :=
  let tracks' := track_ids.foldl (fun d id => mapInsert d id none) st.tracks
  { tracks := tracks', fileContent := some (serializeDb tracks') }

/-!
Discord webhook publisher (src/discord.rs).
-/

/-- Byte length of a string given as its character list, as Rust's
`String::len` counts it (UTF-8 bytes). -/
def byteLen (s : List Char) : Nat := (s.map Char.utf8Size).sum

/-- First `n` bytes of a character list, provided byte `n` is a character
boundary; `none` when it is not (or when `n` exceeds the length). -/
def takeBytes : List Char → Nat → Option (List Char)
  | _, 0 => some []
  | [], _ + 1 => none
  | c :: cs, n + 1 =>
    if c.utf8Size ≤ n + 1 then (takeBytes cs (n + 1 - c.utf8Size)).map (fun t => c :: t)
    else none

/-- Model of Rust's `String::truncate`: a no-op when the string already fits,
otherwise keep the first `n` bytes; `none` models the panic raised when byte
`n` is not a character boundary. -/
def rustTruncate (s : List Char) (n : Nat) : Option (List Char) :=
  if byteLen s ≤ n then some s else takeBytes s n

/-- Byte limit applied to the embed description (src/discord.rs,
`MAX_DESCRIPTION_LENGTH`). -/
def MAX_DESCRIPTION_LENGTH : Nat := 2000

/-- Description component of `build_track_embed` (src/discord.rs, lines
73-83): the track description (empty when absent), truncated to 2000 bytes
with "..." appended when it exceeds 2000 bytes.  `none` models the panic of
`String::truncate` on a non-boundary byte index. -/
def build_track_embed_description (description : Option (List Char)) : Option (List Char) :=
  let d := description.getD []
  if MAX_DESCRIPTION_LENGTH < byteLen d then
    (rustTruncate d MAX_DESCRIPTION_LENGTH).map (fun t => t ++ ['.', '.', '.'])
  else
    some d

/-- Parser state of `parse_tags` (src/discord.rs). -/
structure TagState where
  tags : List String
  current : String
  in_quotes : Bool
  escape_next : Bool
deriving DecidableEq, Repr

/-- One step of the `parse_tags` character loop, mirroring the `match` arms
of the source in order. -/
def tagStep (st : TagState) (c : Char) : TagState :=
  if c == '\\' && !st.escape_next then
    { st with escape_next := true }
  else if c == '"' && st.escape_next then
    { st with current := st.current.push '"', escape_next := false }
  else if c == '"' && !st.in_quotes && !st.escape_next then
    { st with in_quotes := true }
  else if c == '"' && st.in_quotes && !st.escape_next then
    { st with in_quotes := false }
  else if c == ' ' && !st.in_quotes && !st.escape_next then
    if st.current.isEmpty then st
    else { st with tags := st.tags ++ [st.current], current := "" }
  else if st.escape_next then
    { st with current := (st.current.push '\\').push c, escape_next := false }
  else
    { st with current := st.current.push c }

/-- Model of `parse_tags` (src/discord.rs): fold the step over the input and
flush any non-empty final tag. -/
def parse_tags (tag_list : String) : List String :=
  let fin := tag_list.toList.foldl tagStep ⟨[], "", false, false⟩
  if fin.current.isEmpty then fin.tags else fin.tags ++ [fin.current]

/-- Per-file size limit of the webhook upload (src/discord.rs,
`MAX_DISCORD_UPLOAD_SIZE`). -/
def MAX_DISCORD_UPLOAD_SIZE : Nat := 8 * 1024 * 1024

/-- Attachment count limit of the webhook upload (src/discord.rs,
`MAX_ATTACHMENTS`). -/
def MAX_ATTACHMENTS : Nat := 8

/-- Extension of a path, modelling `Path::extension().unwrap_or("")` for
ordinary slash-separated paths: the part of the last component after its
last dot, where a leading dot of the component (hidden file) does not count. -/
def lastDotSuffix : List Char → Option (List Char)
  | [] => none
  | '.' :: cs =>
    match lastDotSuffix cs with
    | some e => some e
    | none => some cs
  | _ :: cs => lastDotSuffix cs

/-- Characters after the last occurrence of a separator character, if the
separator occurs at all. -/
def lastSepSuffix (sep : Char) : List Char → Option (List Char)
  | [] => none
  | c :: cs =>
    match lastSepSuffix sep cs with
    | some e => some e
    | none => if c = sep then some cs else none

/-- Extension of a path as a string (empty when there is none). -/
def extOf (p : String) : String :=
  let name :=
    match lastSepSuffix '/' p.toList with
    | some s => s
    | none => p.toList
  match name with
  | [] => ""
  | c :: rest =>
    let search := if c = '.' then rest else name
    match lastDotSuffix search with
    | some e => String.mk e
    | none => ""

/-- The sort comparator of `send_with_audio_files` (src/discord.rs), on
(path, file name, stat size) triples: audio formats m4a/ogg/opus first, then
json, then jpg/jpeg/png, then everything else; ties compare by size. -/
def fileCmp (a b : String × String × Nat) : Ordering :=
  let extA := extOf a.1
  let extB := extOf b.1
  let isAudioA := extA == "m4a" || extA == "ogg" || extA == "opus"
  let isAudioB := extB == "m4a" || extB == "ogg" || extB == "opus"
  if isAudioA && !isAudioB then Ordering.lt
  else if !isAudioA && isAudioB then Ordering.gt
  else
    let isJsonA := extA == "json"
    let isJsonB := extB == "json"
    if isJsonA && !isJsonB then Ordering.lt
    else if !isJsonA && isJsonB then Ordering.gt
    else
      let isImageA := extA == "jpg" || extA == "jpeg" || extA == "png"
      let isImageB := extB == "jpg" || extB == "jpeg" || extB == "png"
      if isImageA && !isImageB then Ordering.lt
      else if !isImageA && isImageB then Ordering.gt
      else compare a.2.2 b.2.2

/-- The comparator as a relation, for the stable sort: `a` may come before
`b` whenever the comparator does not say strictly greater. -/
def fileLe (a b : String × String × Nat) : Prop := fileCmp a b ≠ Ordering.gt

instance : DecidableRel fileLe := fun a b => by
  unfold fileLe; infer_instance

/-- The acceptance walk of `send_with_audio_files`: stop at the attachment
limit, skip any single file strictly larger than the size limit, accept the
rest in order. -/
def walkFiles : List (String × String × Nat) → Nat → List (String × String)
  | [], _ => []
  | (p, n, sz) :: rest, cnt =>
    if MAX_ATTACHMENTS ≤ cnt then []
    else if MAX_DISCORD_UPLOAD_SIZE < sz then walkFiles rest cnt
    else (p, n) :: walkFiles rest (cnt + 1)

/-- Attachment selection of `send_with_audio_files` (src/discord.rs):
stat every file (size 0 on failure), sort stably with the priority
comparator, then walk the sorted list under the limits.  `stat` models the
file system (`fs::metadata(path).len()`). -/
def send_with_audio_files_selection (files : List (String × String))
    (stat : String → Option Nat) : List (String × String) :=
  let file_sizes := files.map (fun pn => (pn.1, pn.2, (stat pn.1).getD 0))
  let sorted := List.insertionSort fileLe file_sizes
  walkFiles sorted 0

/-- Transport chosen by `send_track_webhook` (src/discord.rs): a plain JSON
body, or a multipart form carrying the accepted attachments. -/
inductive Transport where
  | jsonOnly : Transport
  | multipartForm (accepted : List (String × String)) : Transport
deriving DecidableEq, Repr

/-- Model of the transport decision of `send_track_webhook`: no file list or
an empty file list sends the plain JSON body; a non-empty list goes through
`send_with_audio_files`, which always builds a multipart form (even when the
limits exclude every file). -/
def send_track_webhook_transport (audio_files : Option (List (String × String)))
    (stat : String → Option Nat) : Transport :=
  match audio_files with
  | none => Transport.jsonOnly
  | some files =>
    if files.isEmpty then Transport.jsonOnly
    else Transport.multipartForm (send_with_audio_files_selection files stat)

/-!
Poll driver (src/db.rs, `poll_user`).  The SoundCloud collaborator calls and
the per-track pipeline stages are modelled as oracles supplied as arguments;
a track record is reduced to its id, the only field the catalog logic reads.
-/

/-- A fetched track, reduced to the field the poll driver's catalog logic
uses (the other fields of `soundcloud::Track` feed only logging and the
out-of-scope pipeline). -/
structure STrack where
  id : String
deriving DecidableEq, Repr

/-- Oracles for one per-track processing task: whether the processing
semaphore acquisition succeeds, whether the details fetch succeeds, and the
result of `process_and_post_track` (message id and optional channel id on
success, `none` on any failure). -/
structure TaskEnv where
  acquireOk : String → Bool
  detailsOk : String → Bool
  post : String → Option (String × Option String)

/-- One spawned task of `poll_user`: abandon on semaphore failure, on
details-fetch failure, or on publish failure; on success contribute
`(track id, some message id, channel id)` to the success list. -/
def runTask (env : TaskEnv) (tid : String) : Option (String × Option String × Option String) :=
  if env.acquireOk tid = false then none
  else if env.detailsOk tid = false then none
  else
    match env.post tid with
    | some (mid, chan) => some (tid, some mid, chan)
    | none => none

/-- Commit of one success-list entry: with a message id the track is
recorded via `add_track_with_discord_info` (post value carrying the message
id, channel id, and polling user id); without one it is inserted with the
absent post. -/
def commitSuccess (userId : String) (db : Tracks) :
    String × Option String × Option String → Tracks
  | (tid, some mid, chan) => mapInsert db tid (some ⟨mid, chan, some userId⟩)
  | (tid, none, _) => mapInsert db tid none

/-- Candidate track list of one cycle: the uploads, plus the tracks
extracted from the likes when enabled; a likes fetch failure contributes
nothing (warn and continue). -/
def allTracksOf (tracks : List STrack) (scrapeLikes : Bool)
    (likes : Except String (List STrack)) : List STrack :=
  tracks ++ (if scrapeLikes then (match likes with | Except.ok l => l | Except.error _ => []) else [])

/-- Result of one `poll_user` cycle: the returned count of completed tasks,
the catalog state afterwards, and the deltas applied to the two external
counters. -/
structure PollOutcome where
  processed : Nat
  db : Tracks
  fileContent : Option Json
  totalTracksIncr : Nat
  errorIncr : Nat

/-- Model of `poll_user` (src/db.rs): the uploads fetch result and the likes
fetch result (already composed with `extract_tracks_from_likes`) are inputs,
as is the task oracle.  An uploads failure is returned to the caller before
any catalog change; a likes failure is non-fatal.  Tasks are deterministic
here, so no task panics: the error counter (incremented in the source only
for task join errors) stays at zero, and every spawned task counts as
processed.  The final save is modelled as succeeding, after which the
total-tracks counter grows by the success count. -/
def poll_user (st : DbState) (user_id : String) (scrape_user_likes : Bool)
    (uploads : Except String (List STrack)) (likes : Except String (List STrack))
    (env : TaskEnv) : Except String PollOutcome :=
  match uploads with
  | Except.error e => Except.error e
  | Except.ok tracks =>
    let all_tracks := allTracksOf tracks scrape_user_likes likes
    let track_ids := all_tracks.map (fun t => t.id)
    let new_track_ids := track_ids.filter (fun id => !hasTrack st.tracks id)
    if new_track_ids.isEmpty then
      Except.ok { processed := 0, db := st.tracks, fileContent := st.fileContent,
                  totalTracksIncr := 0, errorIncr := 0 }
    else
      let spawned := new_track_ids.filterMap
        (fun tid => (all_tracks.find? (fun t => t.id == tid)).map (fun t => t.id))
      let successful_tracks := spawned.filterMap (runTask env)
      let db' := successful_tracks.foldl (commitSuccess user_id) st.tracks
      if successful_tracks.isEmpty then
        Except.ok { processed := spawned.length, db := db', fileContent := st.fileContent,
                    totalTracksIncr := 0, errorIncr := 0 }
      else
        Except.ok { processed := spawned.length, db := db',
                    fileContent := some (serializeDb db'),
                    totalTracksIncr := successful_tracks.length, errorIncr := 0 }

/-!
Helper lemmas about the catalog map.
-/

/-- Lookup after a single insert. -/
theorem mapLookup_mapInsert (d : Tracks) (k k' : String) (v : Option DiscordMessage) :
    mapLookup (mapInsert d k v) k' = if k = k' then some v else mapLookup d k' := by
  induction d with
  | nil => simp [mapInsert, mapLookup]
  | cons a t ih =>
    obtain ⟨ak, av⟩ := a
    simp only [mapInsert]
    by_cases hak : ak = k
    · subst hak
      by_cases hkk : ak = k'
      · simp [mapLookup, hkk]
      · simp [mapLookup, hkk]
    · simp only [if_neg hak, mapLookup]
      by_cases hak' : ak = k'
      · have hkk' : ¬ (k = k') := fun h => hak (h ▸ hak')
        simp [hak', hkk']
      · simp [hak', ih]

/-- Membership after a single insert. -/
theorem hasTrack_mapInsert (d : Tracks) (k k' : String) (v : Option DiscordMessage) :
    hasTrack (mapInsert d k v) k' = true ↔ k = k' ∨ hasTrack d k' = true := by
  simp only [hasTrack, mapLookup_mapInsert]
  by_cases h : k = k' <;> simp [h]

/-- Lookup after folding absent-post inserts over a list of ids. -/
theorem mapLookup_foldl_insertNone (ids : List String) (d : Tracks) (k : String) :
    mapLookup (ids.foldl (fun acc id => mapInsert acc id none) d) k =
      if k ∈ ids then some none else mapLookup d k := by
  induction ids generalizing d with
  | nil => simp
  | cons i t ih =>
    simp only [List.foldl_cons, ih, mapLookup_mapInsert, List.mem_cons]
    by_cases hkt : k ∈ t
    · simp [hkt]
    · by_cases hik : i = k
      · simp [hkt, hik]
      · have hki : ¬ (k = i) := fun h => hik h.symm
        simp [hkt, hik, hki]

/-!
Claim theorems.
-/

/-- C2: for every id sequence and catalog state, `add_tracks` returns exactly
the input ids not yet in the catalog, preserving input order; afterwards the
key set is the old key set united with the input, every newly inserted id
maps to the absent post, entries already present are unchanged, and the file
on disk is untouched. -/
theorem add_tracks_spec (st : DbState) (track_ids : List String) :
    (add_tracks st track_ids).2 = track_ids.filter (fun id => !hasTrack st.tracks id) ∧
    (∀ k, hasTrack (add_tracks st track_ids).1.tracks k = true ↔
        (hasTrack st.tracks k = true ∨ k ∈ track_ids)) ∧
    (∀ k, k ∈ track_ids → hasTrack st.tracks k = false →
        mapLookup (add_tracks st track_ids).1.tracks k = some none) ∧
    (∀ k, hasTrack st.tracks k = true →
        mapLookup (add_tracks st track_ids).1.tracks k = mapLookup st.tracks k) ∧
    (add_tracks st track_ids).1.fileContent = st.fileContent := by
  refine ⟨rfl, ?_, ?_, ?_, rfl⟩
  · intro k
    simp only [add_tracks, mapLookup_foldl_insertNone, hasTrack, List.mem_filter]
    by_cases hk : (mapLookup st.tracks k).isSome = true
    · by_cases hmem : k ∈ track_ids <;> simp [hk, hmem]
    · by_cases hmem : k ∈ track_ids <;> simp [hk, hmem]
  · intro k hmem hnot
    simp only [add_tracks, mapLookup_foldl_insertNone, List.mem_filter]
    simp [hmem, hnot]
  · intro k hk
    simp only [add_tracks, mapLookup_foldl_insertNone, List.mem_filter]
    simp [hk]

/-- C2 witness: on a catalog holding only id "1", adding ["1", "2"] leaves
the new id "2" bound to the absent post. -/
theorem add_tracks_spec_witness :
    mapLookup (add_tracks ⟨[("1", some ⟨"m", none, none⟩)], none⟩ ["1", "2"]).1.tracks "2" =
      some none :=
  (add_tracks_spec ⟨[("1", some ⟨"m", none, none⟩)], none⟩ ["1", "2"]).2.2.1 "2"
    (by decide) (by decide)

/-- C10: `initialize_with_tracks` binds every input id to the absent post
unconditionally — an id already carrying a recorded Discord post is
overwritten and its message id lost — leaves all other entries unchanged,
and saves the catalog afterwards. -/
theorem initialize_with_tracks_spec (st : DbState) (track_ids : List String) :
    (∀ id ∈ track_ids, mapLookup (initialize_with_tracks st track_ids).tracks id = some none) ∧
    (∀ k, k ∉ track_ids →
        mapLookup (initialize_with_tracks st track_ids).tracks k = mapLookup st.tracks k) ∧
    (initialize_with_tracks st track_ids).fileContent =
      some (serializeDb (initialize_with_tracks st track_ids).tracks) := by
  refine ⟨?_, ?_, rfl⟩
  · intro id hmem
    simp [initialize_with_tracks, mapLookup_foldl_insertNone, hmem]
  · intro k hk
    simp [initialize_with_tracks, mapLookup_foldl_insertNone, hk]

/-- C10 witness: bulk-initializing with id "1", which already carries a
recorded post with message id "m1", overwrites the binding with the absent
post. -/
theorem initialize_with_tracks_spec_witness :
    mapLookup (initialize_with_tracks ⟨[("1", some ⟨"m1", some "c", some "u"⟩)], none⟩
      ["1"]).tracks "1" = some none :=
  (initialize_with_tracks_spec ⟨[("1", some ⟨"m1", some "c", some "u"⟩)], none⟩ ["1"]).1 "1"
    (by decide)

/-- Lookup misses keys that do not occur. -/
theorem mapLookup_eq_none_of_not_mem (l : Tracks) (k : String)
    (h : k ∉ l.map Prod.fst) : mapLookup l k = none := by
  induction l with
  | nil => rfl
  | cons a t ih =>
    obtain ⟨ak, av⟩ := a
    simp only [List.map_cons, List.mem_cons] at h
    push_neg at h
    simp only [mapLookup]
    rw [if_neg (fun hh => h.1 hh.symm)]
    exact ih h.2

/-- Lookup through `insertAll` when the inserted bindings have distinct keys:
the inserted value wins where present, the base map answers elsewhere. -/
theorem mapLookup_insertAll_nodup (l : Tracks) (d : Tracks) (h : nodupKeys l) (k : String) :
    mapLookup (insertAll d l) k =
      match mapLookup l k with
      | some v => some v
      | none => mapLookup d k := by
  induction l generalizing d with
  | nil => simp [insertAll, mapLookup]
  | cons a t ih =>
    obtain ⟨ak, av⟩ := a
    simp only [nodupKeys, List.map_cons, List.nodup_cons] at h
    have hstep : insertAll d ((ak, av) :: t) = insertAll (mapInsert d ak av) t := rfl
    rw [hstep, ih (mapInsert d ak av) h.2]
    simp only [mapLookup]
    by_cases hk : ak = k
    · subst hk
      have ht : mapLookup t ak = none :=
        mapLookup_eq_none_of_not_mem t ak h.1
      simp [ht, mapLookup_mapInsert]
    · simp only [if_neg hk]
      cases mapLookup t k with
      | some v => simp
      | none => simp [mapLookup_mapInsert, hk]

/-- Per-entry round trip of the catalog value serialization. -/
theorem parseEntryVal_entryToJson (v : Option DiscordMessage) :
    parseEntryVal (entryToJson v) = some v := by
  cases v with
  | none => rfl
  | some m =>
    obtain ⟨i, c, u⟩ := m
    cases c <;> cases u <;> rfl

/-- List-level round trip of the `tracks` object serialization. -/
theorem parseEntries_map (db : Tracks) :
    parseEntries (db.map (fun kv => (kv.1, entryToJson kv.2))) = some db := by
  induction db with
  | nil => rfl
  | cons a t ih =>
    obtain ⟨ak, av⟩ := a
    simp only [List.map_cons, parseEntries, parseEntryVal_entryToJson av, ih]

/-- Migration never fires on a current-format document. -/
theorem migrate_serializeDb (db : Tracks) :
    migrate_from_old_format (serializeDb db) = none := by
  simp [migrate_from_old_format, serializeDb, Json.get, getField, Json.asArray]

/-- Parsing a serialized database succeeds with the bindings collected into
the map. -/
theorem parseDb_serializeDb (db : Tracks) :
    parseDb (serializeDb db) = some (insertAll [] db) := by
  simp [parseDb, serializeDb, getField, parseEntries_map]

/-- C3: a save followed by `load_or_create` on the same path yields a catalog
with the same bindings — the absent post round-trips through JSON null, and a
recorded post round-trips with identical message id, channel id, and user
id — and the reload neither rewrites the file nor produces any backup. -/
theorem save_load_roundtrip (db : Tracks) (fc : Option Json) (h : nodupKeys db) :
    (∀ k, mapLookup (load_or_create (saveDb ⟨db, fc⟩).fileContent).db k = mapLookup db k) ∧
    (load_or_create (saveDb ⟨db, fc⟩).fileContent).written = none ∧
    (load_or_create (saveDb ⟨db, fc⟩).fileContent).oldFormatBak = none ∧
    (load_or_create (saveDb ⟨db, fc⟩).fileContent).corruptedBak = none := by
  have hload : load_or_create (saveDb ⟨db, fc⟩).fileContent =
      { db := insertAll [] db, written := none, oldFormatBak := none, corruptedBak := none } := by
    simp [load_or_create, saveDb, migrate_serializeDb, parseDb_serializeDb]
  refine ⟨?_, by rw [hload], by rw [hload], by rw [hload]⟩
  intro k
  rw [hload]
  rw [mapLookup_insertAll_nodup db [] h k]
  cases mapLookup db k <;> simp [mapLookup]

/-- C3 witness: a two-entry catalog — one recorded post, one absent post —
round-trips its binding for id "1". -/
theorem save_load_roundtrip_witness :
    mapLookup (load_or_create (saveDb ⟨[("1", some ⟨"m1", some "c", some "u"⟩), ("2", none)],
        none⟩).fileContent).db "1" =
      mapLookup [("1", some ⟨"m1", some "c", some "u"⟩), ("2", none)] "1" :=
  (save_load_roundtrip [("1", some ⟨"m1", some "c", some "u"⟩), ("2", none)] none
    (by decide)).1 "1"

/-- Lookup after the legacy-migration fold: exactly the stringifiable
elements produce bindings, each with the absent post. -/
theorem mapLookup_migrateFold (arr : List Json) (d : Tracks) (k : String) :
    mapLookup (arr.foldl (fun db el =>
        match stringifyScalar el with
        | some s => mapInsert db s none
        | none => db) d) k =
      if some k ∈ arr.map stringifyScalar then some none else mapLookup d k := by
  induction arr generalizing d with
  | nil => simp
  | cons el t ih =>
    simp only [List.foldl_cons, List.map_cons, List.mem_cons]
    cases hs : stringifyScalar el with
    | none =>
      rw [ih]
      have : ¬ (some k = (none : Option String)) := by simp
      by_cases hmem : some k ∈ t.map stringifyScalar <;> simp [hmem, this]
    | some s =>
      rw [ih]
      by_cases hmem : some k ∈ t.map stringifyScalar
      · simp [hmem]
      · by_cases hks : s = k
        · subst hks
          simp [hmem, mapLookup_mapInsert]
        · have : ¬ (some k = some s) := by simpa using fun hh => hks hh.symm
          simp [hmem, this, mapLookup_mapInsert, hks]

/-- C4 counterexample: the claim demands that a legacy file whose `tracks`
array holds the integer scalar `-1` yield a catalog keyed by its
stringification "-1"; the code's migration uses `as_u64`, skips the negative
integer, and produces an empty catalog. -/
theorem legacy_migration_counterexample :
    (load_or_create (some (Json.obj [("tracks", Json.arr [Json.num (-1)])]))).db = [] ∧
    hasTrack (load_or_create (some (Json.obj [("tracks", Json.arr [Json.num (-1)])]))).db "-1"
      = false := by
  constructor <;> rfl

/-- C4 amended: for an existing legacy file whose `tracks` field is an array,
the catalog keys are exactly the stringifications of the *string* elements
and of the integer elements representable as `u64` (other elements are
skipped), each mapped to the absent post; the original document is copied to
`<path>.old_format.bak` and the current-format serialization of the migrated
catalog is written to `<path>`. -/
theorem legacy_migration_spec (arr : List Json) :
    ((load_or_create (some (Json.obj [("tracks", Json.arr arr)]))).oldFormatBak =
      some (Json.obj [("tracks", Json.arr arr)])) ∧
    ((load_or_create (some (Json.obj [("tracks", Json.arr arr)]))).written =
      some (serializeDb (load_or_create (some (Json.obj [("tracks", Json.arr arr)]))).db)) ∧
    (∀ k, hasTrack (load_or_create (some (Json.obj [("tracks", Json.arr arr)]))).db k = true ↔
      some k ∈ arr.map stringifyScalar) ∧
    (∀ k, some k ∈ arr.map stringifyScalar →
      mapLookup (load_or_create (some (Json.obj [("tracks", Json.arr arr)]))).db k =
        some none) := by
  have hmig : migrate_from_old_format (Json.obj [("tracks", Json.arr arr)]) =
      some (arr.foldl (fun db el =>
        match stringifyScalar el with
        | some s => mapInsert db s none
        | none => db) []) := by
    simp [migrate_from_old_format, Json.get, getField, Json.asArray]
  have hload : load_or_create (some (Json.obj [("tracks", Json.arr arr)])) =
      { db := arr.foldl (fun db el =>
          match stringifyScalar el with
          | some s => mapInsert db s none
          | none => db) [],
        written := some (serializeDb (arr.foldl (fun db el =>
          match stringifyScalar el with
          | some s => mapInsert db s none
          | none => db) [])),
        oldFormatBak := some (Json.obj [("tracks", Json.arr arr)]),
        corruptedBak := none } := by
    simp [load_or_create, hmig]
  refine ⟨by rw [hload], by rw [hload], ?_, ?_⟩
  · intro k
    rw [hload]
    simp only [hasTrack, mapLookup_migrateFold]
    by_cases hmem : some k ∈ arr.map stringifyScalar <;> simp [hmem, mapLookup]
  · intro k hmem
    rw [hload]
    simp only [mapLookup_migrateFold]
    simp [hmem]

/-- C4 witness: migrating `{ "tracks": ["1", 2] }` binds the stringification
"2" of the integer element to the absent post. -/
theorem legacy_migration_spec_witness :
    mapLookup (load_or_create (some (Json.obj
      [("tracks", Json.arr [Json.str "1", Json.num 2])]))).db "2" = some none :=
  (legacy_migration_spec [Json.str "1", Json.num 2]).2.2.2 "2" (by decide)

/-- Byte length distributes over append. -/
theorem byteLen_append (a b : List Char) : byteLen (a ++ b) = byteLen a + byteLen b := by
  simp [byteLen]

/-- Byte length of a repeated character. -/
theorem byteLen_replicate (n : Nat) (c : Char) :
    byteLen (List.replicate n c) = n * c.utf8Size := by
  induction n with
  | zero => simp [byteLen]
  | succ m ih =>
    simp only [List.replicate_succ, byteLen, List.map_cons, List.sum_cons] at *
    rw [ih]
    ring

/-- A successful byte-prefix has exactly the requested byte length. -/
theorem takeBytes_byteLen (s : List Char) (n : Nat) (t : List Char)
    (h : takeBytes s n = some t) : byteLen t = n := by
  induction s generalizing n t with
  | nil =>
    cases n with
    | zero =>
      simp only [takeBytes, Option.some.injEq] at h
      subst h
      rfl
    | succ m => simp [takeBytes] at h
  | cons c cs ih =>
    cases n with
    | zero =>
      simp only [takeBytes, Option.some.injEq] at h
      subst h
      rfl
    | succ m =>
      simp only [takeBytes] at h
      split at h
      · cases ht : takeBytes cs (m + 1 - c.utf8Size) with
        | none => rw [ht] at h; simp at h
        | some t' =>
          rw [ht] at h
          simp only [Option.map_some', Option.some.injEq] at h
          subst h
          have hlen := ih (m + 1 - c.utf8Size) t' ht
          simp only [byteLen, List.map_cons, List.sum_cons] at *
          omega
      · simp at h

/-- Byte-prefix through a block of one-byte characters: the prefix keeps the
block and continues in the remainder. -/
theorem takeBytes_replicate_append (c : Char) (hc : c.utf8Size = 1) (n : Nat) :
    ∀ (m : Nat) (rest : List Char), n ≤ m →
      takeBytes (List.replicate n c ++ rest) m =
        (takeBytes rest (m - n)).map (fun t => List.replicate n c ++ t) := by
  induction n with
  | zero =>
    intro m rest _
    show takeBytes rest m = (takeBytes rest (m - 0)).map (fun t => List.replicate 0 c ++ t)
    rw [Nat.sub_zero]
    cases takeBytes rest m <;> rfl
  | succ p ih =>
    intro m rest hm
    obtain ⟨m', rfl⟩ : ∃ m', m = m' + 1 := ⟨m - 1, by omega⟩
    simp only [List.replicate_succ, List.cons_append, takeBytes, hc]
    rw [if_pos (by omega : (1 : Nat) ≤ m' + 1)]
    rw [(by omega : m' + 1 - 1 = m')]
    simp only [List.append_eq]
    rw [ih m' rest (by omega)]
    rw [(by omega : m' + 1 - (p + 1) = m' - p)]
    cases takeBytes rest (m' - p) <;> rfl

/-- C5 counterexample: for a description of 1999 one-byte characters followed
by a two-byte character, byte 2000 falls inside the last character, so the
claimed output (first 2000 bytes plus "...") is not produced — the code
panics there (`String::truncate` on a non-boundary index), modelled as
`none`. -/
theorem build_track_embed_description_counterexample :
    MAX_DESCRIPTION_LENGTH < byteLen (List.replicate 1999 'a' ++ ['é', 'a']) ∧
    build_track_embed_description (some (List.replicate 1999 'a' ++ ['é', 'a'])) = none := by
  have ha : ('a').utf8Size = 1 := by decide
  have he : ('é').utf8Size = 2 := by decide
  have hlen : byteLen (List.replicate 1999 'a' ++ ['é', 'a']) = 2002 := by
    rw [byteLen_append, byteLen_replicate, ha]
    simp [byteLen, ha, he]
  have htb : takeBytes (List.replicate 1999 'a' ++ ['é', 'a']) 2000 = none := by
    rw [takeBytes_replicate_append 'a' ha 1999 2000 ['é', 'a'] (by omega)]
    rw [(by omega : (2000 : Nat) - 1999 = 1)]
    have hstep : takeBytes ['é', 'a'] 1 = none := by
      simp only [takeBytes]
      rw [if_neg (by rw [he]; omega)]
    rw [hstep]
    rfl
  constructor
  · rw [hlen]; decide
  · simp only [build_track_embed_description, Option.getD_some]
    rw [if_pos (by rw [hlen]; decide)]
    unfold rustTruncate
    rw [if_neg (by rw [hlen]; decide)]
    unfold MAX_DESCRIPTION_LENGTH
    rw [htb]
    rfl

/-- C5 amended: the embed description equals the track description when its
UTF-8 byte length is at most 2000 bytes; when it is longer *and* byte 2000
is a character boundary, it equals the first 2000 bytes followed by "...";
when byte 2000 is not a character boundary the code panics instead of
producing a value.  Whenever a description is produced, its byte length is
at most 2003. -/
theorem build_track_embed_description_spec (d : List Char) :
    (byteLen d ≤ MAX_DESCRIPTION_LENGTH → build_track_embed_description (some d) = some d) ∧
    (∀ t, MAX_DESCRIPTION_LENGTH < byteLen d → takeBytes d MAX_DESCRIPTION_LENGTH = some t →
        build_track_embed_description (some d) = some (t ++ ['.', '.', '.'])) ∧
    (∀ out, build_track_embed_description (some d) = some out →
        byteLen out ≤ MAX_DESCRIPTION_LENGTH + 3) ∧
    build_track_embed_description none = some [] := by
  refine ⟨?_, ?_, ?_, rfl⟩
  · intro hle
    simp only [build_track_embed_description, Option.getD_some]
    rw [if_neg (by omega)]
  · intro t hlt ht
    simp only [build_track_embed_description, Option.getD_some]
    rw [if_pos hlt]
    unfold rustTruncate
    rw [if_neg (by omega), ht]
    rfl
  · intro out hout
    simp only [build_track_embed_description, Option.getD_some] at hout
    by_cases hlt : MAX_DESCRIPTION_LENGTH < byteLen d
    · rw [if_pos hlt] at hout
      unfold rustTruncate at hout
      rw [if_neg (by omega)] at hout
      cases ht : takeBytes d MAX_DESCRIPTION_LENGTH with
      | none => rw [ht] at hout; simp at hout
      | some t =>
        rw [ht] at hout
        simp only [Option.map_some', Option.some.injEq] at hout
        subst hout
        have hlen := takeBytes_byteLen d MAX_DESCRIPTION_LENGTH t ht
        rw [byteLen_append, hlen]
        have h3 : byteLen ['.', '.', '.'] = 3 := by decide
        omega
    · rw [if_neg hlt] at hout
      simp only [Option.some.injEq] at hout
      subst hout
      omega

/-- C5 witness: a one-character description fits the limit and is kept
verbatim. -/
theorem build_track_embed_description_spec_witness :
    build_track_embed_description (some ['a']) = some ['a'] :=
  (build_track_embed_description_spec ['a']).1 (by decide)

/-- The acceptance walk never accepts more than the attachment limit allows
beyond the running count. -/
theorem walkFiles_length (l : List (String × String × Nat)) :
    ∀ cnt, (walkFiles l cnt).length ≤ MAX_ATTACHMENTS - cnt := by
  induction l with
  | nil => intro cnt; simp [walkFiles]
  | cons a rest ih =>
    intro cnt
    obtain ⟨p, n, sz⟩ := a
    simp only [walkFiles]
    by_cases h1 : MAX_ATTACHMENTS ≤ cnt
    · rw [if_pos h1]; simp
    · rw [if_neg h1]
      by_cases h2 : MAX_DISCORD_UPLOAD_SIZE < sz
      · rw [if_pos h2]; exact ih cnt
      · rw [if_neg h2]
        simp only [List.length_cons]
        have := ih (cnt + 1)
        omega

/-- Every file accepted by the walk occurs in the walked list with a size
within the per-file limit. -/
theorem walkFiles_mem (l : List (String × String × Nat)) :
    ∀ cnt p n, (p, n) ∈ walkFiles l cnt →
      ∃ sz, (p, n, sz) ∈ l ∧ sz ≤ MAX_DISCORD_UPLOAD_SIZE := by
  induction l with
  | nil => intro cnt p n h; simp [walkFiles] at h
  | cons a rest ih =>
    intro cnt p n h
    obtain ⟨p', n', sz'⟩ := a
    simp only [walkFiles] at h
    by_cases h1 : MAX_ATTACHMENTS ≤ cnt
    · rw [if_pos h1] at h; simp at h
    · rw [if_neg h1] at h
      by_cases h2 : MAX_DISCORD_UPLOAD_SIZE < sz'
      · rw [if_pos h2] at h
        obtain ⟨sz, hmem, hsz⟩ := ih cnt p n h
        exact ⟨sz, List.mem_cons_of_mem _ hmem, hsz⟩
      · rw [if_neg h2] at h
        rcases List.mem_cons.mp h with heq | htail
        · cases heq
          exact ⟨sz', List.mem_cons_self _ _, by omega⟩
        · obtain ⟨sz, hmem, hsz⟩ := ih (cnt + 1) p n htail
          exact ⟨sz, List.mem_cons_of_mem _ hmem, hsz⟩

/-- C6: the attachment selection — stable sort by the tier key (m4a/ogg/opus,
then json, then jpg/jpeg/png, then the rest; smaller stat size first within
a tier), then a walk skipping any file strictly over 8 MiB and accepting at
most 8 — never accepts more than 8 files, accepts only supplied files whose
stat size is within the per-file limit, and on the spec's six-file example
yields [b.m4a, d.json, e.png, f.mp3, a.mp3] with c.ogg dropped for size. -/
theorem send_with_audio_files_selection_spec :
    (∀ (files : List (String × String)) (stat : String → Option Nat),
        (send_with_audio_files_selection files stat).length ≤ MAX_ATTACHMENTS) ∧
    (∀ (files : List (String × String)) (stat : String → Option Nat) (p n : String),
        (p, n) ∈ send_with_audio_files_selection files stat →
        (p, n) ∈ files ∧ (stat p).getD 0 ≤ MAX_DISCORD_UPLOAD_SIZE) ∧
    send_with_audio_files_selection
        [("a.mp3", "a.mp3"), ("b.m4a", "b.m4a"), ("c.ogg", "c.ogg"),
         ("d.json", "d.json"), ("e.png", "e.png"), ("f.mp3", "f.mp3")]
        (fun p => if p = "a.mp3" then some 1024 else if p = "b.m4a" then some 1024
          else if p = "c.ogg" then some (9 * 1024 * 1024) else if p = "d.json" then some 100
          else if p = "e.png" then some (2 * 1024 * 1024) else if p = "f.mp3" then some 500
          else none) =
      [("b.m4a", "b.m4a"), ("d.json", "d.json"), ("e.png", "e.png"),
       ("f.mp3", "f.mp3"), ("a.mp3", "a.mp3")] := by
  refine ⟨?_, ?_, by decide⟩
  · intro files stat
    have := walkFiles_length
      (List.insertionSort fileLe (files.map (fun pn => (pn.1, pn.2, (stat pn.1).getD 0)))) 0
    simpa [send_with_audio_files_selection] using this
  · intro files stat p n hmem
    simp only [send_with_audio_files_selection] at hmem
    obtain ⟨sz, hmem', hsz⟩ := walkFiles_mem _ 0 p n hmem
    have hperm := List.perm_insertionSort fileLe
      (files.map (fun pn => (pn.1, pn.2, (stat pn.1).getD 0)))
    have hmap : (p, n, sz) ∈ files.map (fun pn => (pn.1, pn.2, (stat pn.1).getD 0)) :=
      hperm.mem_iff.mp hmem'
    obtain ⟨pn, hpn, heq⟩ := List.mem_map.mp hmap
    obtain ⟨q, m⟩ := pn
    simp only [Prod.mk.injEq] at heq
    obtain ⟨rfl, rfl, hszeq⟩ := heq
    exact ⟨hpn, by rw [← hszeq] at hsz; exact hsz⟩

/-- C6 witness: a single small mp3 is accepted, is one of the supplied
files, and respects the size limit. -/
theorem send_with_audio_files_selection_spec_witness :
    ("x.mp3", "x") ∈ [("x.mp3", "x")] ∧
    ((fun _ : String => some 1) "x.mp3").getD 0 ≤ MAX_DISCORD_UPLOAD_SIZE :=
  send_with_audio_files_selection_spec.2.1 [("x.mp3", "x")] (fun _ => some 1) "x.mp3" "x"
    (by decide)

/-- C7 counterexample: with a single supplied 9 MiB ogg file, the accepted
attachment set is empty, yet the publisher does not send the plain JSON
body — `send_with_audio_files` still builds a multipart form (holding only
`payload_json`). -/
theorem send_track_webhook_transport_counterexample :
    send_with_audio_files_selection [("c.ogg", "c.ogg")] (fun _ => some (9 * 1024 * 1024)) = [] ∧
    send_track_webhook_transport (some [("c.ogg", "c.ogg")]) (fun _ => some (9 * 1024 * 1024)) ≠
      Transport.jsonOnly := by
  constructor <;> decide

/-- C7 amended: the plain JSON body `{ embeds, username }` is sent exactly
when no file list is supplied or the supplied list is empty; whenever a
non-empty list is supplied, a multipart form is sent carrying the accepted
attachments — even when the size and count limits exclude every file. -/
theorem send_track_webhook_transport_spec (stat : String → Option Nat) :
    send_track_webhook_transport none stat = Transport.jsonOnly ∧
    send_track_webhook_transport (some []) stat = Transport.jsonOnly ∧
    (∀ files, files ≠ [] →
        send_track_webhook_transport (some files) stat =
          Transport.multipartForm (send_with_audio_files_selection files stat)) := by
  refine ⟨rfl, rfl, ?_⟩
  intro files hne
  cases files with
  | nil => exact absurd rfl hne
  | cons a t => rfl

/-- C7 witness: a non-empty supplied list goes out as a multipart form. -/
theorem send_track_webhook_transport_spec_witness :
    send_track_webhook_transport (some [("a.mp3", "a")]) (fun _ => some 1) =
      Transport.multipartForm
        (send_with_audio_files_selection [("a.mp3", "a")] (fun _ => some 1)) :=
  (send_track_webhook_transport_spec (fun _ => some 1)).2.2 [("a.mp3", "a")] (by decide)

/-- C8: the tag parser obeys the spec's rules — a backslash escapes the next
character; an escaped double quote yields a literal double quote while any
other escaped character yields a literal backslash followed by that
character; an unescaped double quote toggles quoted mode; an unescaped space
outside quotes terminates the current tag, with empty tags skipped — and the
spec's four example equations hold. -/
theorem parse_tags_spec :
    (∀ st : TagState, st.escape_next = false →
        tagStep st '\\' = { st with escape_next := true }) ∧
    (∀ st : TagState, st.escape_next = true →
        tagStep st '"' = { st with current := st.current.push '"', escape_next := false }) ∧
    (∀ (st : TagState) (c : Char), st.escape_next = true → c ≠ '"' →
        tagStep st c = { st with current := (st.current.push '\\').push c,
                                 escape_next := false }) ∧
    (∀ st : TagState, st.escape_next = false → st.in_quotes = false →
        tagStep st '"' = { st with in_quotes := true }) ∧
    (∀ st : TagState, st.escape_next = false → st.in_quotes = true →
        tagStep st '"' = { st with in_quotes := false }) ∧
    (∀ st : TagState, st.escape_next = false → st.in_quotes = false →
        st.current.isEmpty = false →
        tagStep st ' ' = { st with tags := st.tags ++ [st.current], current := "" }) ∧
    (∀ st : TagState, st.escape_next = false → st.in_quotes = false →
        st.current.isEmpty = true → tagStep st ' ' = st) ∧
    parse_tags "one two" = ["one", "two"] ∧
    parse_tags "\"a b\" c" = ["a b", "c"] ∧
    parse_tags "a\\\"b" = ["a\"b"] ∧
    parse_tags "" = [] := by
  refine ⟨?_, ?_, ?_, ?_, ?_, ?_, ?_, by decide, by decide, by decide, by decide⟩
  · intro st h
    simp [tagStep, h]
  · intro st h
    simp [tagStep, h]
  · intro st c h hc
    have hc' : (c == '"') = false := by simp [hc]
    simp [tagStep, h, hc']
  · intro st h hq
    simp [tagStep, h, hq]
  · intro st h hq
    simp [tagStep, h, hq]
  · intro st h hq hcur
    simp [tagStep, h, hq, hcur]
  · intro st h hq hcur
    simp [tagStep, h, hq, hcur]

/-- C8 witness: with an escape pending, a double quote is appended to the
current tag as a literal quote and the escape is consumed. -/
theorem parse_tags_spec_witness :
    tagStep ⟨[], "", false, true⟩ '"' = ⟨[], ("" : String).push '"', false, false⟩ :=
  parse_tags_spec.2.1 ⟨[], "", false, true⟩ rfl

/-- Membership after committing a success list: exactly the ids of the
committed entries join the catalog. -/
theorem hasTrack_commitFold (l : List (String × Option String × Option String))
    (uid : String) (db : Tracks) (k : String) :
    hasTrack (l.foldl (commitSuccess uid) db) k = true ↔
      hasTrack db k = true ∨ k ∈ l.map (fun s => s.1) := by
  induction l generalizing db with
  | nil => simp
  | cons s t ih =>
    obtain ⟨tid, mid, chan⟩ := s
    simp only [List.foldl_cons, List.map_cons, List.mem_cons]
    rw [ih]
    cases mid with
    | none =>
      simp only [commitSuccess, hasTrack_mapInsert]
      constructor
      · rintro (⟨rfl | hdb⟩ | hmem)
        · exact Or.inr (Or.inl rfl)
        · exact Or.inl hdb
        · exact Or.inr (Or.inr hmem)
      · rintro (hdb | ⟨rfl | hmem⟩)
        · exact Or.inl (Or.inr hdb)
        · exact Or.inl (Or.inl rfl)
        · exact Or.inr hmem
    | some m =>
      simp only [commitSuccess, hasTrack_mapInsert]
      constructor
      · rintro (⟨rfl | hdb⟩ | hmem)
        · exact Or.inr (Or.inl rfl)
        · exact Or.inl hdb
        · exact Or.inr (Or.inr hmem)
      · rintro (hdb | ⟨rfl | hmem⟩)
        · exact Or.inl (Or.inr hdb)
        · exact Or.inl (Or.inl rfl)
        · exact Or.inr hmem

/-- When an id occurs among the fetched tracks, `find?` locates a track
carrying exactly that id. -/
theorem find_map_id (all_tracks : List STrack) (tid : String)
    (h : tid ∈ all_tracks.map (fun t => t.id)) :
    (all_tracks.find? (fun t => t.id == tid)).map (fun t => t.id) = some tid := by
  induction all_tracks with
  | nil => simp at h
  | cons a rest ih =>
    simp only [List.map_cons, List.mem_cons] at h
    by_cases ha : (a.id == tid) = true
    · have ha' : (fun t : STrack => t.id == tid) a = true := ha
      rw [List.find?_cons_of_pos rest ha']
      simp only [Option.map_some', Option.some.injEq]
      exact eq_of_beq ha
    · have ha' : ¬ (fun t : STrack => t.id == tid) a = true := ha
      rw [List.find?_cons_of_neg rest ha']
      rcases h with heq | hmem
      · exact absurd (beq_iff_eq.mpr heq.symm) ha
      · exact ih hmem

/-- A `filterMap` whose function returns each listed element unchanged is
the identity. -/
theorem filterMap_eq_self_of (l : List String) (f : String → Option String)
    (h : ∀ x ∈ l, f x = some x) : l.filterMap f = l := by
  induction l with
  | nil => rfl
  | cons a t ih =>
    rw [List.filterMap_cons, h a (List.mem_cons_self a t)]
    rw [ih (fun x hx => h x (List.mem_cons_of_mem _ hx))]

/-- A successful task reports the id it was spawned for. -/
theorem runTask_fst (env : TaskEnv) (tid : String)
    (s : String × Option String × Option String) (h : runTask env tid = some s) :
    s.1 = tid := by
  unfold runTask at h
  split at h
  · exact absurd h (by simp)
  · split at h
    · exact absurd h (by simp)
    · cases hpost : env.post tid with
      | none => rw [hpost] at h; exact absurd h (by simp)
      | some mc =>
        obtain ⟨mid, chan⟩ := mc
        rw [hpost] at h
        cases h
        rfl

/-- Ids of the successful tasks: a spawned id contributes iff its task
succeeded. -/
theorem mem_map_fst_filterMap_runTask (env : TaskEnv) (l : List String) (k : String) :
    k ∈ (l.filterMap (runTask env)).map (fun s => s.1) ↔
      k ∈ l ∧ (runTask env k).isSome = true := by
  induction l with
  | nil => simp
  | cons a t ih =>
    rw [List.filterMap_cons]
    cases ha : runTask env a with
    | none =>
      rw [ih]
      simp only [List.mem_cons]
      constructor
      · rintro ⟨hm, hs⟩
        exact ⟨Or.inr hm, hs⟩
      · rintro ⟨rfl | hm, hs⟩
        · rw [ha] at hs; exact absurd hs (by simp)
        · exact ⟨hm, hs⟩
    | some s =>
      have hfst := runTask_fst env a s ha
      simp only [List.map_cons, List.mem_cons, hfst, ih]
      constructor
      · rintro (rfl | ⟨hm, hs⟩)
        · exact ⟨Or.inl rfl, by rw [ha]; rfl⟩
        · exact ⟨Or.inr hm, hs⟩
      · rintro ⟨rfl | hm, hs⟩
        · exact Or.inl rfl
        · exact Or.inr ⟨hm, hs⟩

/-- C1: in a completed poll cycle, among ids not previously in the catalog,
exactly those whose per-track processing reached a successful publish are
members afterwards — a track failing at the semaphore, details-fetch, or
publish stage gains no membership. -/
theorem poll_user_membership (st : DbState) (user_id : String) (scrape : Bool)
    (uploads likes : Except String (List STrack)) (env : TaskEnv) (out : PollOutcome)
    (hok : poll_user st user_id scrape uploads likes env = Except.ok out)
    (tracks : List STrack) (hup : uploads = Except.ok tracks)
    (tid : String) (hnew : hasTrack st.tracks tid = false) :
    hasTrack out.db tid = true ↔
      (tid ∈ (allTracksOf tracks scrape likes).map (fun t => t.id) ∧
        (runTask env tid).isSome = true) := by
  subst hup
  simp only [poll_user] at hok
  by_cases hempty :
      ((allTracksOf tracks scrape likes).map (fun t => t.id)).filter
        (fun id => !hasTrack st.tracks id) = []
  · rw [if_pos (by simp [hempty])] at hok
    cases hok
    constructor
    · intro h
      exact absurd h (by simp [hnew])
    · rintro ⟨hmem, _⟩
      exfalso
      have hin : tid ∈ ((allTracksOf tracks scrape likes).map (fun t => t.id)).filter
          (fun id => !hasTrack st.tracks id) :=
        List.mem_filter.mpr ⟨hmem, by simp [hnew]⟩
      rw [hempty] at hin
      exact absurd hin (by simp)
  · rw [if_neg (by simp [List.isEmpty_iff, hempty])] at hok
    have hspawn :
        List.filterMap
          (fun (i : String) => Option.map (fun (t : STrack) => t.id)
            (List.find? (fun (t : STrack) => t.id == i) (allTracksOf tracks scrape likes)))
          (List.filter (fun (i : String) => !hasTrack st.tracks i)
            (List.map (fun (t : STrack) => t.id) (allTracksOf tracks scrape likes))) =
        List.filter (fun (i : String) => !hasTrack st.tracks i)
          (List.map (fun (t : STrack) => t.id) (allTracksOf tracks scrape likes)) :=
      filterMap_eq_self_of _ _ (fun x hx => find_map_id _ x (List.mem_filter.mp hx).1)
    split at hok <;> cases hok <;>
    · rw [show ∀ (a : Nat) (b : Tracks) (c : Option Json) (d e : Nat),
          (PollOutcome.mk a b c d e).db = b from fun _ _ _ _ _ => rfl]
      rw [hspawn, hasTrack_commitFold, mem_map_fst_filterMap_runTask]
      constructor
      · rintro (hdbmem | ⟨hmemf, hsome⟩)
        · exact absurd hdbmem (by simp [hnew])
        · exact ⟨(List.mem_filter.mp hmemf).1, hsome⟩
      · rintro ⟨hmem, hsome⟩
        exact Or.inr ⟨List.mem_filter.mpr ⟨hmem, by simp [hnew]⟩, hsome⟩

/-- C1 witness: on an empty catalog, polling a user whose single upload "1"
is processed and published successfully makes "1" a member, as the
characterization demands. -/
theorem poll_user_membership_witness :
    hasTrack [("1", some (⟨"m1", none, some "u"⟩ : DiscordMessage))] "1" = true ↔
      ("1" ∈ (allTracksOf [⟨"1"⟩] false (Except.ok [])).map (fun t => t.id) ∧
        (runTask ⟨fun _ => true, fun _ => true, fun _ => some ("m1", none)⟩ "1").isSome = true) :=
  poll_user_membership ⟨[], none⟩ "u" false (Except.ok [⟨"1"⟩]) (Except.ok [])
    ⟨fun _ => true, fun _ => true, fun _ => some ("m1", none)⟩
    { processed := 1, db := [("1", some ⟨"m1", none, some "u"⟩)],
      fileContent := some (serializeDb [("1", some ⟨"m1", none, some "u"⟩)]),
      totalTracksIncr := 1, errorIncr := 0 }
    rfl [⟨"1"⟩] rfl "1" rfl

/-- C9: `poll_user` returns an error exactly when the uploads fetch fails —
the error is propagated before any catalog change — while a likes fetch
failure is always non-fatal: with likes scraping enabled, a failed likes
fetch leaves the cycle identical to one run without likes scraping, and the
error counter (touched in the source only by task join errors) is never
incremented on the likes path. -/
theorem poll_user_error_spec :
    (∀ (st : DbState) (uid : String) (scrape : Bool)
        (likes : Except String (List STrack)) (env : TaskEnv) (e : String),
        poll_user st uid scrape (Except.error e) likes env = Except.error e) ∧
    (∀ (st : DbState) (uid : String) (scrape : Bool)
        (uploads likes : Except String (List STrack)) (env : TaskEnv),
        (∃ out, poll_user st uid scrape uploads likes env = Except.ok out) ↔
          ∃ tracks, uploads = Except.ok tracks) ∧
    (∀ (st : DbState) (uid : String)
        (uploads : Except String (List STrack)) (env : TaskEnv) (e : String),
        poll_user st uid true uploads (Except.error e) env =
          poll_user st uid false uploads (Except.error e) env) ∧
    (∀ (st : DbState) (uid : String) (scrape : Bool)
        (uploads likes : Except String (List STrack)) (env : TaskEnv) (out : PollOutcome),
        poll_user st uid scrape uploads likes env = Except.ok out → out.errorIncr = 0) := by
  refine ⟨fun _ _ _ _ _ _ => rfl, ?_, ?_, ?_⟩
  · intro st uid scrape uploads likes env
    cases uploads with
    | error e =>
      constructor
      · rintro ⟨out, h⟩
        exact absurd h (by simp [poll_user])
      · rintro ⟨tracks, h⟩
        exact absurd h (by simp)
    | ok tracks =>
      constructor
      · intro _
        exact ⟨tracks, rfl⟩
      · intro _
        simp only [poll_user]
        split
        · exact ⟨_, rfl⟩
        · split
          · exact ⟨_, rfl⟩
          · exact ⟨_, rfl⟩
  · intro st uid uploads env e
    cases uploads <;> rfl
  · intro st uid scrape uploads likes env out h
    cases uploads with
    | error e => exact absurd h (by simp [poll_user])
    | ok tracks =>
      simp only [poll_user] at h
      split at h
      · cases h; rfl
      · split at h <;> (cases h; rfl)

/-- C9 witness: a cycle with no uploads completes with a zero error-counter
increment. -/
theorem poll_user_error_spec_witness :
    ({ processed := 0, db := [], fileContent := none, totalTracksIncr := 0,
       errorIncr := 0 } : PollOutcome).errorIncr = 0 :=
  poll_user_error_spec.2.2.2 ⟨[], none⟩ "u" false (Except.ok []) (Except.ok [])
    ⟨fun _ => true, fun _ => true, fun _ => none⟩
    { processed := 0, db := [], fileContent := none, totalTracksIncr := 0, errorIncr := 0 } rfl
